import Mathlib

/-!
Shallow embedding of the bookmark-manager core (folder/bookmark data model,
folder-tree resolver, view filter pipeline, mutation gate) and proofs about it.

The recursive tree walks in the source (`getAllChildFolderIds`,
`countFolderBookmarks`, `getParentPath`) have no cycle guard; they are embedded
with an explicit fuel parameter returning `Option`, where `none` models
non-termination.  Acyclicity of the parent graph is expressed by the existence
of a rank function that strictly decreases from a parent to its children
(`Ranked`) respectively from a child to its parent (`ParentRanked`).
-/

namespace BookmarksManager

/-- Folder record, from `src/src/types.d.ts`: `{ id, name, parentId }` with
`parentId` either another folder's id or null. -/
structure Folder where
  id : String
  name : String
  parentId : Option String
deriving DecidableEq

/-- Bookmark record, from `src/src/types.d.ts`. -/
structure Bookmark where
  id : String
  title : String
  url : String
  description : String
  thumbnail : String
  tags : List String
  folderId : Option String
  favorite : Bool
  dateAdded : String
deriving DecidableEq

/-- JavaScript falsiness of a `string | null` value: `null` and the empty
string are falsy.  Used by `getFolderPathName` (`if (!folderId) ...`) and
`getParentPath` (`if (!folder.parentId) ...`). -/
def jsFalsy : Option String → Bool
  | none => true
  | some s => decide (s = "")

/-- JavaScript `s.toLowerCase()`, modelled on the character list. -/
def toLowerJS (s : String) : List Char :=
  s.toList.map Char.toLower

/-- JavaScript `s.trim()`, modelled on the character list: leading and
trailing whitespace removed. -/
def trimJS (s : String) : List Char :=
  ((s.toList.dropWhile Char.isWhitespace).reverse.dropWhile Char.isWhitespace).reverse

/-- JavaScript `big.includes(sub)`: `sub` occurs as a contiguous substring of
`big`. -/
def includesJS (big sub : List Char) : Bool :=
  decide (sub <:+: big)

/-- Sequence a fallible computation over a list, failing as soon as one
element fails.  Used to model a JavaScript `forEach` whose body performs a
possibly non-terminating recursive call. -/
def traverseOption {α β : Type} (g : α → Option β) : List α → Option (List β)
  | [] => some []
  | a :: as =>
    match g a with
    | none => none
    | some b => (traverseOption g as).map (fun bs => b :: bs)

/-- `getAllChildFolderIds` from `src/src/App.tsx` lines 106-115 (identical in
`src/unnamed/part_001` lines 34-43 and `src/unnamed/part_012` lines 42-49):
direct children first, then each child's descendants appended in order.  The
source recursion is unguarded, so the embedding takes fuel; `none` models
non-termination.  The parameter is `Option String` because the call site in
`filteredBookmarks` passes `selectedFolder` which may be `null` (recursive
calls always pass a child's id). -/
def getAllChildFolderIds (folders : List Folder) : Nat → Option String → Option (List String)
  | 0, _ => none
  | fuel+1, folderId =>
    let directChildren :=
      (folders.filter (fun f => decide (f.parentId = folderId))).map Folder.id
    (traverseOption (fun childId =>
        getAllChildFolderIds folders fuel (some childId)) directChildren).map
      (fun rests => directChildren ++ rests.flatten)

/-- The search predicate of `filteredBookmarks`, `src/src/App.tsx` lines
133-139 (identical in `src/unnamed/part_001` lines 61-67): the lowercased
query is a substring of the lowercased title, or of the lowercased url, or of
some lowercased tag.  The source does not trim the query. -/
def matchesSearch (searchQuery : String) (b : Bookmark) : Bool :=
  includesJS (toLowerJS b.title) (toLowerJS searchQuery) ||
  includesJS (toLowerJS b.url) (toLowerJS searchQuery) ||
  b.tags.any (fun tag => includesJS (toLowerJS tag) (toLowerJS searchQuery))

/-- `filteredBookmarks` from `src/src/App.tsx` lines 117-139 (identical in
`src/unnamed/part_001` lines 45-67): a scope filter (`'all'`, `'favorites'`,
or a folder id together with all ids returned by `getAllChildFolderIds`)
followed by the search filter.  The per-bookmark recomputation of
`getAllChildFolderIds` in the source callback is hoisted out of the filter
(its arguments do not depend on the bookmark). -/
def filteredBookmarks (folders : List Folder) (bookmarks : List Bookmark)
    (selectedFolder : Option String) (searchQuery : String) (fuel : Nat) :
    Option (List Bookmark) :=
  if selectedFolder = some "all" then
    some ((bookmarks.filter (fun _ => true)).filter (matchesSearch searchQuery))
  else if selectedFolder = some "favorites" then
    some ((bookmarks.filter (fun b => b.favorite)).filter (matchesSearch searchQuery))
  else
    (getAllChildFolderIds folders fuel selectedFolder).map (fun childIds =>
      (bookmarks.filter (fun b =>
        (selectedFolder :: childIds.map some).contains b.folderId)).filter
        (matchesSearch searchQuery))

/-- `createFolder` from `src/src/App.tsx` lines 321-333: unauthenticated calls
leave the collection unchanged; authenticated calls append a folder with the
given name verbatim (no blank-name check) and id `folder-${folders.length+1}`.
The hook variant `src/unnamed/part_012` lines 8-17 is identical except that it
derives the id from `Date.now()`. -/
def createFolder (isAuthenticated : Bool) (folders : List Folder)
    (name : String) (parentId : Option String) : List Folder :=
  if !isAuthenticated then folders
  else folders ++ [⟨"folder-" ++ toString (folders.length + 1), name, parentId⟩]

/-- `handleSubmit` of `src/src/components/FolderModal.tsx` lines 40-42: the
modal invokes `onSave` (wired to `createFolder`) only when the folder name is
non-empty after trimming, and passes the trimmed name. -/
def folderModalSave (isAuthenticated : Bool) (folders : List Folder)
    (folderName : String) (selectedParentId : Option String) : List Folder :=
  if trimJS folderName = [] then folders
  else createFolder isAuthenticated folders (String.mk (trimJS folderName)) selectedParentId

/-- `updateFolder` from `src/unnamed/part_012` lines 19-22: rename in place,
gated on authentication. -/
def updateFolder (isAuthenticated : Bool) (folders : List Folder)
    (folderId : String) (newName : String) : List Folder :=
  if !isAuthenticated then folders
  else folders.map (fun f => if f.id = folderId then ⟨f.id, newName, f.parentId⟩ else f)

/-- `addBookmark` from `src/unnamed/part_013` lines 8-25.  The id suffix and
ISO timestamp both come from the wall clock in the source and are passed in as
parameters here. -/
def addBookmark (isAuthenticated : Bool) (bookmarks : List Bookmark)
    (selectedFolder : Option String) (nowId nowIso : String) : List Bookmark :=
  if !isAuthenticated then bookmarks
  else
    bookmarks ++ [⟨"bookmark-" ++ nowId, "New Bookmark", "https://example.com",
      "Add a description", "", [],
      (if selectedFolder = some "all" ∨ selectedFolder = some "favorites" then none
       else selectedFolder),
      false, nowIso⟩]

/-- `updateBookmark` from `src/unnamed/part_013` lines 27-30: replace the
bookmark with matching id, gated on authentication. -/
def updateBookmark (isAuthenticated : Bool) (bookmarks : List Bookmark)
    (updatedBookmark : Bookmark) : List Bookmark :=
  if !isAuthenticated then bookmarks
  else bookmarks.map (fun b => if b.id = updatedBookmark.id then updatedBookmark else b)

/-- `deleteBookmark` from `src/unnamed/part_013` lines 32-35. -/
def deleteBookmark (isAuthenticated : Bool) (bookmarks : List Bookmark)
    (i : String) : List Bookmark :=
  if !isAuthenticated then bookmarks
  else bookmarks.filter (fun b => decide (b.id ≠ i))

/-- `toggleFavorite` from `src/unnamed/part_013` lines 37-40: flip the
`favorite` flag of the bookmark with matching id, gated on authentication. -/
def toggleFavorite (isAuthenticated : Bool) (bookmarks : List Bookmark)
    (i : String) : List Bookmark :=
  if !isAuthenticated then bookmarks
  else bookmarks.map (fun b =>
    if b.id = i then
      ⟨b.id, b.title, b.url, b.description, b.thumbnail, b.tags, b.folderId,
        !b.favorite, b.dateAdded⟩
    else b)

/-- `countFolderBookmarks` from `src/src/components/Sidebar.tsx` lines
148-156: direct bookmarks of the folder plus the recursive counts of the
folders whose `parentId` is the given id.  Fuel models the unguarded
recursion. -/
def countFolderBookmarksFuel (folders : List Folder) (bookmarks : List Bookmark) :
    Nat → String → Option Nat
  | 0, _ => none
  | fuel+1, folderId =>
    let direct := (bookmarks.filter (fun b => decide (b.folderId = some folderId))).length
    let subfolderIds :=
      (folders.filter (fun f => decide (f.parentId = some folderId))).map Folder.id
    (traverseOption (countFolderBookmarksFuel folders bookmarks fuel) subfolderIds).map
      (fun counts => direct + counts.sum)

/-- `getParentPath` from `src/src/App.tsx` lines 426-431 (identical in
`src/unnamed/part_012` lines 32-37): a folder whose `parentId` is falsy
(null or empty) or dangling is its own path; otherwise the parent's path,
`" > "`, and the folder's name.  Fuel models the unguarded recursion. -/
def getParentPath (folders : List Folder) : Nat → Folder → Option String
  | 0, _ => none
  | fuel+1, folder =>
    if jsFalsy folder.parentId then some folder.name
    else
      match folders.find? (fun f => decide (some f.id = folder.parentId)) with
      | none => some folder.name
      | some parent =>
        (getParentPath folders fuel parent).map (fun pp => pp ++ " > " ++ folder.name)

/-- `getFolderPathName` from `src/src/App.tsx` lines 403-434 (identical in
`src/unnamed/part_012` lines 24-40).  The first branch is the JavaScript
falsiness test `if (!folderId)`, which catches both `null` and `""`. -/
def getFolderPathName (folders : List Folder) (fuel : Nat)
    (folderId : Option String) : Option String :=
  if jsFalsy folderId then some "All Bookmarks"
  else if folderId = some "all" then some "All Bookmarks"
  else if folderId = some "favorites" then some "Favorites"
  else
    match folders.find? (fun f => decide (some f.id = folderId)) with
    | none => some "Unknown Folder"
    | some folder => getParentPath folders fuel folder

/-! ### Spec-modelled view filter pipeline

The final application variant combines `useSelectedTag`, `useConfig`
(`flattenSubfolders`) and the hooks of `src/unnamed/part_012` / `part_013`
into a tag-aware, flatten-aware `filteredBookmarks`.  That component is not
among the provided sources: only its consumers are (`MainContent` second
variant uses `config.flattenSubfolders` and a `selectedTag` prop, `Header`
second variant has `onToggleFlatten`, and `src/src/hooks/useSelectedTag.ts`
owns the tag selection).  The pipeline is therefore modelled from the spec
(§4.3) below. -/

/-- Modelled from the spec: the search filter of §4.3 step 2 — if the query
is non-empty after trimming, keep case-insensitive substring matches on
title, url, or a tag; an empty (trimmed) query keeps all.  The substring test
reuses the one of the in-source `filteredBookmarks`. -/
def searchKeep (searchQuery : String) (b : Bookmark) : Bool :=
  if trimJS searchQuery = [] then true else matchesSearch searchQuery b

/-- Modelled from the spec: `visibleBookmarks` of §4.3 — the scope filter
(tag scope first; else `"all"`; else `"favorites"`; else a concrete folder id
flattened through `descendantIds` when `config.flattenSubfolders` is true and
matched exactly otherwise; a null folder with no tag keeps all) AND-ed with
the search filter.  The App component implementing this is missing from the
provided sources; descendant resolution reuses the in-source
`getAllChildFolderIds`. -/
def visibleBookmarks (folders : List Folder) (bookmarks : List Bookmark)
    (selectedFolder selectedTag : Option String) (searchQuery : String)
    (flattenSubfolders : Bool) (fuel : Nat) : Option (List Bookmark) :=
  match selectedTag with
  | some t =>
    some ((bookmarks.filter (fun b => b.tags.contains t)).filter (searchKeep searchQuery))
  | none =>
    if selectedFolder = some "all" then
      some (bookmarks.filter (searchKeep searchQuery))
    else if selectedFolder = some "favorites" then
      some ((bookmarks.filter (fun b => b.favorite)).filter (searchKeep searchQuery))
    else
      match selectedFolder with
      | none => some (bookmarks.filter (searchKeep searchQuery))
      | some fid =>
        if flattenSubfolders then
          (getAllChildFolderIds folders fuel (some fid)).map (fun ds =>
            (bookmarks.filter (fun b =>
              (some fid :: ds.map some).contains b.folderId)).filter
              (searchKeep searchQuery))
        else
          some ((bookmarks.filter (fun b => decide (b.folderId = some fid))).filter
            (searchKeep searchQuery))

/-! ### Spec-side notions used to state the claims -/

/-- A rank function witnessing that the parent graph has no cycle below any
node: every folder's rank is strictly below the rank of its parent id, so the
child relation (the one `getAllChildFolderIds` and `countFolderBookmarks`
recurse along) strictly decreases the rank. -/
def Ranked (folders : List Folder) (rank : String → Nat) : Prop :=
  ∀ f ∈ folders, ∀ p, f.parentId = some p → rank f.id < rank p

/-- Acyclicity of the parent graph, expressed as the existence of a rank
function (for a finite folder collection this is equivalent to no folder
being its own ancestor). -/
def Acyclic (folders : List Folder) : Prop :=
  ∃ rank, Ranked folders rank

/-- A rank function decreasing from a folder to its parent: the relation
`getParentPath` recurses along strictly decreases it.  Exists exactly when
the parent graph is acyclic. -/
def ParentRanked (folders : List Folder) (rk : String → Nat) : Prop :=
  ∀ f ∈ folders, ∀ p ∈ folders, f.parentId = some p.id → rk p.id < rk f.id

/-- The spec's search condition: the case-insensitive query is a substring of
the title, or of the url, or of at least one tag entry. -/
def SpecSearchMatch (searchQuery : String) (b : Bookmark) : Prop :=
  toLowerJS searchQuery <:+: toLowerJS b.title ∨
  toLowerJS searchQuery <:+: toLowerJS b.url ∨
  ∃ tag ∈ b.tags, toLowerJS searchQuery <:+: toLowerJS tag

/-- The claim's chain of folder names from the root ancestor down to the
named folder (root first), taking the claim literally: a folder whose
`parentId` is null or matches no folder contributes only its own name. -/
def nameChainOfClaim (folders : List Folder) : Nat → Folder → Option (List String)
  | 0, _ => none
  | fuel+1, folder =>
    match folder.parentId with
    | none => some [folder.name]
    | some p =>
      match folders.find? (fun f => decide (f.id = p)) with
      | none => some [folder.name]
      | some parent =>
        (nameChainOfClaim folders fuel parent).map (fun c => c ++ [folder.name])

/-- The `" > "`-joined rendering of a chain of names. -/
def joinPath : List String → String
  | [] => ""
  | [n] => n
  | n :: rest => n ++ " > " ++ joinPath rest

/-- `pathName` exactly as claim C9 words it: `"All Bookmarks"` for null or
`"all"`, `"Favorites"` for `"favorites"`, `"Unknown Folder"` for an id with
no matching folder, and otherwise the `" > "`-joined name chain. -/
def pathNameOfClaim (folders : List Folder) (fuel : Nat)
    (folderId : Option String) : Option String :=
  match folderId with
  | none => some "All Bookmarks"
  | some fid =>
    if fid = "all" then some "All Bookmarks"
    else if fid = "favorites" then some "Favorites"
    else
      match folders.find? (fun f => decide (f.id = fid)) with
      | none => some "Unknown Folder"
      | some folder => (nameChainOfClaim folders fuel folder).map joinPath

/-- The name chain as the code actually treats roots: a folder whose
`parentId` is JavaScript-falsy (null or empty) or matches no folder is a
root. -/
def nameChain (folders : List Folder) : Nat → Folder → Option (List String)
  | 0, _ => none
  | fuel+1, folder =>
    if jsFalsy folder.parentId then some [folder.name]
    else
      match folders.find? (fun f => decide (some f.id = folder.parentId)) with
      | none => some [folder.name]
      | some parent =>
        (nameChain folders fuel parent).map (fun c => c ++ [folder.name])

/-- `pathName` as amended by the counterexample: a JavaScript-falsy folder id
(null or the empty string) yields `"All Bookmarks"`, and a falsy `parentId`
makes a folder a root even when some folder has the empty id. -/
def pathNameAmended (folders : List Folder) (fuel : Nat)
    (folderId : Option String) : Option String :=
  if jsFalsy folderId then some "All Bookmarks"
  else if folderId = some "all" then some "All Bookmarks"
  else if folderId = some "favorites" then some "Favorites"
  else
    match folders.find? (fun f => decide (some f.id = folderId)) with
    | none => some "Unknown Folder"
    | some folder => (nameChain folders fuel folder).map joinPath

/-! ### Concrete data used by witnesses and counterexamples -/

/-- A two-folder collection: `Root` with child `Sub`. -/
def demoFolders : List Folder :=
  [⟨"r", "Root", none⟩, ⟨"s", "Sub", some "r"⟩]

/-- A rank function for `demoFolders`. -/
def demoRank : String → Nat :=
  fun i => if i = "r" then 1 else 0

/-- A bookmark filed in the subfolder of `demoFolders`. -/
def demoSubBookmark : Bookmark :=
  ⟨"b1", "T", "U", "", "", [], some "s", false, ""⟩

/-- A three-folder chain `Root → Mid → Leaf`. -/
def demoChain : List Folder :=
  [⟨"root", "Root", none⟩, ⟨"mid", "Mid", some "root"⟩, ⟨"leaf", "Leaf", some "mid"⟩]

/-- A parent-directed rank function for `demoChain`. -/
def demoChainRk : String → Nat :=
  fun i => if i = "leaf" then 2 else if i = "mid" then 1 else 0

/-- A folder collection exercising JavaScript falsiness: one folder whose id
is the empty string and one whose `parentId` is the empty string. -/
def demoFalsyFolders : List Folder :=
  [⟨"", "Weird", none⟩, ⟨"x", "X", some ""⟩]

/-- A bookmark whose `folderId` dangles to a non-existent folder. -/
def demoGhostBookmark : Bookmark :=
  ⟨"b1", "t", "u", "", "", [], some "ghost", false, ""⟩

/-- A bookmark with no whitespace anywhere in its searched fields. -/
def demoPlainBookmark : Bookmark :=
  ⟨"b1", "abc", "xyz", "", "", [], none, false, ""⟩

/-! ### Helper lemmas -/

theorem toLowerJS_empty : toLowerJS "" = [] := by decide

theorem matchesSearch_empty (b : Bookmark) : matchesSearch "" b = true := by
  simp [matchesSearch, toLowerJS_empty, includesJS, List.nil_infix]

theorem filter_matchesSearch_empty (bs : List Bookmark) :
    bs.filter (matchesSearch "") = bs :=
  List.filter_eq_self.mpr (fun b _ => matchesSearch_empty b)

theorem matchesSearch_eq_true_iff (q : String) (b : Bookmark) :
    matchesSearch q b = true ↔ SpecSearchMatch q b := by
  simp [matchesSearch, SpecSearchMatch, includesJS, List.any_eq_true, or_assoc]

theorem searchKeep_empty (b : Bookmark) : searchKeep "" b = true := by
  have h : trimJS "" = [] := by decide
  simp [searchKeep, h]

theorem filter_searchKeep_empty (bs : List Bookmark) :
    bs.filter (searchKeep "") = bs :=
  List.filter_eq_self.mpr (fun b _ => searchKeep_empty b)

/-! ### Claim C5 — search filter -/

/-- C5 as stated is false on the code: the source does not trim the query.
The query `" "` trims to the empty string, yet the search filter drops a
bookmark with title `"abc"`, url `"xyz"` and no tags instead of keeping every
bookmark. -/
theorem searchFilter_trim_counterexample :
    trimJS " " = [] ∧ List.filter (matchesSearch " ") [demoPlainBookmark] = [] := by
  decide

/-- C5 (amended): the search filter keeps every bookmark exactly when the
query is the empty string itself (the source never trims); for any query it
keeps exactly the bookmarks where the lowercased query as given is a
substring of the lowercased title, url, or some tag entry. -/
theorem searchFilter_amended (q : String) (bs : List Bookmark) :
    bs.filter (matchesSearch "") = bs ∧
    ∀ b, matchesSearch q b = true ↔ SpecSearchMatch q b :=
  ⟨filter_matchesSearch_empty bs, fun b => matchesSearch_eq_true_iff q b⟩

/-! ### Claim C4 — mutation gate -/

/-- C4: every mutation operation invoked with `isAuthenticated = false`
leaves the folder collection and the bookmark collection exactly unchanged. -/
theorem mutations_unauthenticated_noop (folders : List Folder)
    (bookmarks : List Bookmark) (name : String) (parentId : Option String)
    (fid newName : String) (sf : Option String) (nowId nowIso : String)
    (ub : Bookmark) (i j : String) :
    createFolder false folders name parentId = folders ∧
    updateFolder false folders fid newName = folders ∧
    addBookmark false bookmarks sf nowId nowIso = bookmarks ∧
    updateBookmark false bookmarks ub = bookmarks ∧
    deleteBookmark false bookmarks i = bookmarks ∧
    toggleFavorite false bookmarks j = bookmarks := by
  simp [createFolder, updateFolder, addBookmark, updateBookmark, deleteBookmark,
    toggleFavorite]

/-! ### Claim C3 — blank folder names -/

/-- C3 as stated is false on the code: `createFolder` has no blank-name
check, so an authenticated call with the whitespace-only name `"   "` does
change the folder collection. -/
theorem createFolder_blank_counterexample :
    trimJS "   " = [] ∧ createFolder true [] "   " none ≠ [] := by
  decide

/-- C3 (amended): an unauthenticated `createFolder` is a no-op, and a name
that trims to empty never reaches the store through the folder modal
(`FolderModal.handleSubmit` only calls `onSave` for a non-blank trimmed
name); the bare store operation itself, however, performs no blank-name
validation. -/
theorem createFolder_blank_amended (isAuthenticated : Bool)
    (folders : List Folder) (name : String) (parentId : Option String)
    (h : trimJS name = []) :
    folderModalSave isAuthenticated folders name parentId = folders ∧
    createFolder false folders name parentId = folders := by
  refine ⟨?_, ?_⟩
  · simp [folderModalSave, h]
  · simp [createFolder]

/-- Witness for C3 (amended) at the whitespace-only name `"   "`. -/
theorem createFolder_blank_amended_witness :
    folderModalSave true demoFolders "   " none = demoFolders ∧
    createFolder false demoFolders "   " none = demoFolders :=
  createFolder_blank_amended true demoFolders "   " none (by decide)

/-! ### Claim C10 — empty-string folder id -/

/-- C10: for every folder collection (and any fuel), `getFolderPathName`
applied to the empty string returns `"All Bookmarks"`: the JavaScript
falsiness test `if (!folderId)` catches `""` exactly like `null`, so `""`
never yields `"Unknown Folder"`. -/
theorem pathName_empty_string_all_bookmarks (folders : List Folder) (fuel : Nat) :
    getFolderPathName folders fuel (some "") = some "All Bookmarks" := by
  simp [getFolderPathName, jsFalsy]

/-! ### Counterexamples for C6 and C9 -/

/-- C6 as stated is false on the code: with `selectedFolder = "ghost"` an id
matching no folder, a bookmark whose `folderId` dangles to `"ghost"` is still
included, because the scope filter compares `folderId` against the selected
id itself. -/
theorem unknownFolder_counterexample :
    (∀ f ∈ ([⟨"f1", "Docs", none⟩] : List Folder), f.id ≠ "ghost") ∧
    filteredBookmarks [⟨"f1", "Docs", none⟩] [demoGhostBookmark]
      (some "ghost") "" 1 = some [demoGhostBookmark] := by
  decide

/-- C9 as stated is false on the code: on a collection with a folder whose id
is the empty string, the code returns `"All Bookmarks"` for the id `""`
(claim: the chain `"Weird"`) and `"X"` for the id `"x"` whose folder's
`parentId` is `""` (claim: the chain `"Weird > X"`), because both falsiness
tests treat `""` like `null`. -/
theorem pathName_falsy_counterexample :
    getFolderPathName demoFalsyFolders 2 (some "") ≠
      pathNameOfClaim demoFalsyFolders 2 (some "") ∧
    getFolderPathName demoFalsyFolders 2 (some "x") ≠
      pathNameOfClaim demoFalsyFolders 2 (some "x") := by
  decide



/-- If two fallible computations agree (in the success direction) on the
elements of a list, a successful traversal with the first is also a
successful traversal with the second. -/
theorem traverseOption_congr_some {α β : Type} {g g' : α → Option β}
    (l : List α) (hg : ∀ a ∈ l, ∀ r, g a = some r → g' a = some r)
    {rs : List β} (h : traverseOption g l = some rs) : traverseOption g' l = some rs := by
  induction l generalizing rs with
  | nil => simpa [traverseOption] using h
  | cons a as ihl =>
    simp only [traverseOption] at h ⊢
    rcases h1 : g a with _ | r
    · rw [h1] at h; simp at h
    · rw [h1] at h
      rw [hg a (by simp) r h1]
      rcases h2 : traverseOption g as with _ | rs'
      · rw [h2] at h; simp at h
      · rw [h2] at h
        rw [ihl (fun b hb r hr => hg b (by simp [hb]) r hr) h2]
        exact h

/-- A traversal succeeds when the computation succeeds on every element. -/
theorem traverseOption_all_some {α β : Type} {g : α → Option β}
    (l : List α) (hg : ∀ a ∈ l, ∃ r, g a = some r) :
    ∃ rs, traverseOption g l = some rs := by
  induction l with
  | nil => exact ⟨[], rfl⟩
  | cons a as ihl =>
    obtain ⟨r, hr⟩ := hg a (by simp)
    obtain ⟨rs, hrs⟩ := ihl (fun b hb => hg b (by simp [hb]))
    exact ⟨r :: rs, by simp [traverseOption, hr, hrs]⟩

/-- Under a child-decreasing rank function, `getAllChildFolderIds` succeeds
once the fuel exceeds the rank of the start id, and every returned id has a
strictly smaller rank than the start id. -/
theorem getAllChildFolderIds_term (folders : List Folder) (rank : String → Nat)
    (hr : Ranked folders rank) :
    ∀ fuel x, rank x < fuel →
      ∃ ds, getAllChildFolderIds folders fuel (some x) = some ds ∧
        ∀ y ∈ ds, rank y < rank x := by
  intro fuel
  induction fuel with
  | zero => intro x hx; omega
  | succ k ih =>
    intro x hx
    have hdcRank : ∀ c ∈ (folders.filter
        (fun f => decide (f.parentId = some x))).map Folder.id, rank c < rank x := by
      intro c hc
      rcases List.mem_map.mp hc with ⟨f, hf, rfl⟩
      rcases List.mem_filter.mp hf with ⟨hfmem, hfp⟩
      exact hr f hfmem x (by simpa using hfp)
    have hmap : ∀ (l : List String), (∀ c ∈ l, rank c < rank x) →
        ∃ rs, traverseOption (fun c => getAllChildFolderIds folders k (some c)) l = some rs ∧
          ∀ ys ∈ rs, ∀ y ∈ ys, rank y < rank x := by
      intro l
      induction l with
      | nil => intro _; exact ⟨[], rfl, by simp⟩
      | cons c cs ihl =>
        intro hl
        have hc : rank c < rank x := hl c (by simp)
        obtain ⟨ds, hds, hdsr⟩ := ih c (by omega)
        obtain ⟨rs, hrs, hrsr⟩ := ihl (fun d hd => hl d (by simp [hd]))
        refine ⟨ds :: rs, by simp [traverseOption, hds, hrs], ?_⟩
        intro ys hys y hy
        rcases List.mem_cons.mp hys with rfl | hys
        · exact lt_trans (hdsr y hy) hc
        · exact hrsr ys hys y hy
    obtain ⟨rs, hrs, hrsr⟩ := hmap _ hdcRank
    refine ⟨((folders.filter (fun f => decide (f.parentId = some x))).map Folder.id)
      ++ rs.flatten, ?_, ?_⟩
    · simp only [getAllChildFolderIds]
      rw [hrs]
      rfl
    · intro y hy
      rcases List.mem_append.mp hy with hy | hy
      · exact hdcRank y hy
      · rcases List.mem_flatten.mp hy with ⟨ys, hys, hy⟩
        exact hrsr ys hys y hy

/-- A successful `getAllChildFolderIds` result is stable under adding fuel. -/
theorem getAllChildFolderIds_mono (folders : List Folder) :
    ∀ fuel fuel' x ds, fuel ≤ fuel' →
      getAllChildFolderIds folders fuel x = some ds →
      getAllChildFolderIds folders fuel' x = some ds := by
  intro fuel
  induction fuel with
  | zero => intro fuel' x ds _ h; simp [getAllChildFolderIds] at h
  | succ k ih =>
    intro fuel' x ds hle h
    obtain ⟨k', rfl⟩ : ∃ k', fuel' = k' + 1 := ⟨fuel' - 1, by omega⟩
    simp only [getAllChildFolderIds] at h ⊢
    rcases hm : traverseOption (fun childId => getAllChildFolderIds folders k (some childId))
        ((folders.filter (fun f => decide (f.parentId = x))).map Folder.id) with _ | rs
    · rw [hm] at h; simp at h
    · rw [hm] at h
      rw [traverseOption_congr_some _
        (fun c _ r hr => ih k' (some c) r (by omega) hr) hm]
      exact h

/-- Every direct child's id appears in a successful `getAllChildFolderIds`
result. -/
theorem getAllChildFolderIds_mem_direct (folders : List Folder) (fuel : Nat)
    (x : String) (ds : List String)
    (h : getAllChildFolderIds folders (fuel + 1) (some x) = some ds)
    (g : Folder) (hg : g ∈ folders) (hgp : g.parentId = some x) :
    g.id ∈ ds := by
  simp only [getAllChildFolderIds] at h
  rcases hm : traverseOption (fun childId => getAllChildFolderIds folders fuel (some childId))
      ((folders.filter (fun f => decide (f.parentId = some x))).map Folder.id) with _ | rs
  · rw [hm] at h; simp at h
  · rw [hm] at h
    simp only [Option.map_some', Option.some.injEq] at h
    subst h
    exact List.mem_append.mpr (Or.inl
      (List.mem_map.mpr ⟨g, List.mem_filter.mpr ⟨hg, by simp [hgp]⟩, rfl⟩))



/-- C7: on every finite folder collection with unique ids whose parent graph
is acyclic, `getAllChildFolderIds` (the spec's `descendantIds`) terminates
for every folder `F` in the collection — some fuel yields a result that all
larger fuels agree on — and the result never contains `F`'s own id. -/
theorem descendantIds_terminate_self_free (folders : List Folder)
    (hacyc : Acyclic folders) (hnodup : (folders.map Folder.id).Nodup)
    (f : Folder) (hf : f ∈ folders) :
    ∃ fuel ds, getAllChildFolderIds folders fuel (some f.id) = some ds ∧
      f.id ∉ ds ∧
      ∀ fuel', fuel ≤ fuel' → getAllChildFolderIds folders fuel' (some f.id) = some ds := by
  obtain ⟨rank, hr⟩ := hacyc
  obtain ⟨ds, hds, hdsr⟩ :=
    getAllChildFolderIds_term folders rank hr (rank f.id + 1) f.id (by omega)
  refine ⟨rank f.id + 1, ds, hds, ?_, ?_⟩
  · intro hmem
    exact absurd (hdsr _ hmem) (lt_irrefl _)
  · intro fuel' h'
    exact getAllChildFolderIds_mono folders _ fuel' _ ds h' hds

/-- Witness for C7 on the concrete `Root → Sub` collection. -/
theorem descendantIds_terminate_self_free_witness :
    ∃ fuel ds, getAllChildFolderIds demoFolders fuel (some "r") = some ds ∧
      "r" ∉ ds ∧
      ∀ fuel', fuel ≤ fuel' →
        getAllChildFolderIds demoFolders fuel' (some "r") = some ds :=
  descendantIds_terminate_self_free demoFolders
    ⟨demoRank, (by
      intro g hg p hp
      fin_cases hg
      · simp at hp
      · have hpr : p = "r" := by simpa using hp.symm
        subst hpr
        decide)⟩
    (by decide) ⟨"r", "Root", none⟩ (by decide)

/-- C6 (amended): with a selected folder id that matches no folder, is not
one of the sentinels `"all"`/`"favorites"`, and is referenced by no
bookmark's `folderId` and no folder's `parentId`, `filteredBookmarks`
returns the empty list (and, being a total function of its fuel, never
throws).  Without the no-reference conditions the result need not be empty:
the counterexample shows a bookmark whose `folderId` equals the unknown id
being included. -/
theorem unknownFolder_amended (folders : List Folder) (bookmarks : List Bookmark)
    (ghost : String) (searchQuery : String) (fuel : Nat)
    (hall : ghost ≠ "all") (hfav : ghost ≠ "favorites")
    (hid : ∀ f ∈ folders, f.id ≠ ghost)
    (hnof : ∀ f ∈ folders, f.parentId ≠ some ghost)
    (hnob : ∀ b ∈ bookmarks, b.folderId ≠ some ghost)
    (hfuel : 0 < fuel) :
    filteredBookmarks folders bookmarks (some ghost) searchQuery fuel = some [] := by
  obtain ⟨k, rfl⟩ : ∃ k, fuel = k + 1 := ⟨fuel - 1, by omega⟩
  have hchild : folders.filter (fun f => decide (f.parentId = some ghost)) = [] := by
    rw [List.filter_eq_nil_iff]
    intro f hf
    simpa using hnof f hf
  have hids : getAllChildFolderIds folders (k + 1) (some ghost) = some [] := by
    simp only [getAllChildFolderIds]
    rw [hchild]
    rfl
  simp only [filteredBookmarks]
  rw [if_neg (by simp [hall]), if_neg (by simp [hfav]), hids]
  have hb : bookmarks.filter
      (fun b => (some ghost :: (List.map some [])).contains b.folderId) = [] := by
    rw [List.filter_eq_nil_iff]
    intro b hb
    simp [hnob b hb]
  simp only [Option.map_some', Option.some.injEq]
  rw [hb]
  rfl

/-- Witness for C6 (amended) on a concrete collection with no dangling
references. -/
theorem unknownFolder_amended_witness :
    filteredBookmarks [⟨"f1", "Docs", none⟩]
      [⟨"b2", "t", "u", "", "", [], some "f1", false, ""⟩]
      (some "ghost") "" 1 = some [] :=
  unknownFolder_amended [⟨"f1", "Docs", none⟩]
    [⟨"b2", "t", "u", "", "", [], some "f1", false, ""⟩] "ghost" "" 1
    (by decide) (by decide) (by decide) (by decide) (by decide) (by decide)

/-- Unfolding of the spec-modelled pipeline in the concrete-folder branch
with `flattenSubfolders = true`. -/
theorem visibleBookmarks_folder_flatten (folders : List Folder)
    (bookmarks : List Bookmark) (fid : String) (q : String) (fuel : Nat)
    (h1 : fid ≠ "all") (h2 : fid ≠ "favorites") :
    visibleBookmarks folders bookmarks (some fid) none q true fuel =
      (getAllChildFolderIds folders fuel (some fid)).map (fun ds =>
        (bookmarks.filter (fun b =>
          (some fid :: ds.map some).contains b.folderId)).filter (searchKeep q)) := by
  simp only [visibleBookmarks]
  rw [if_neg (by simp [h1]), if_neg (by simp [h2])]
  simp

/-- Unfolding of the spec-modelled pipeline in the concrete-folder branch
with `flattenSubfolders = false`. -/
theorem visibleBookmarks_folder_exact (folders : List Folder)
    (bookmarks : List Bookmark) (fid : String) (q : String) (fuel : Nat)
    (h1 : fid ≠ "all") (h2 : fid ≠ "favorites") :
    visibleBookmarks folders bookmarks (some fid) none q false fuel =
      some ((bookmarks.filter (fun b => decide (b.folderId = some fid))).filter
        (searchKeep q)) := by
  simp only [visibleBookmarks]
  rw [if_neg (by simp [h1]), if_neg (by simp [h2])]
  simp

/-- C2: for every folder collection (acyclic, via a rank function, with
enough fuel for the selected folder) containing a folder `Sub` whose id is
`s` and whose `parentId` is `r` (with `r` not a sentinel value and `s ≠ r`),
and every bookmark filed under `s`: `visibleBookmarks` with
`selectedFolder = r` includes that bookmark when `flattenSubfolders` is true
and excludes it when `flattenSubfolders` is false. -/
theorem visibleBookmarks_flatten_subfolder (folders : List Folder)
    (bookmarks : List Bookmark) (r s : String) (sub : Folder) (b : Bookmark)
    (rank : String → Nat) (fuel : Nat)
    (hr : Ranked folders rank) (hfuel : rank r < fuel)
    (hrall : r ≠ "all") (hrfav : r ≠ "favorites")
    (hsub : sub ∈ folders) (hsid : sub.id = s) (hspar : sub.parentId = some r)
    (hne : s ≠ r) (hb : b ∈ bookmarks) (hbf : b.folderId = some s) :
    (∃ l, visibleBookmarks folders bookmarks (some r) none "" true fuel = some l ∧
      b ∈ l) ∧
    (∃ l, visibleBookmarks folders bookmarks (some r) none "" false fuel = some l ∧
      b ∉ l) := by
  obtain ⟨ds, hds, hdsr⟩ := getAllChildFolderIds_term folders rank hr fuel r hfuel
  obtain ⟨k, rfl⟩ : ∃ k, fuel = k + 1 := ⟨fuel - 1, by omega⟩
  have hmem : s ∈ ds := by
    have h := getAllChildFolderIds_mem_direct folders k r ds hds sub hsub (by rw [hspar])
    rwa [hsid] at h
  constructor
  · have hvis : visibleBookmarks folders bookmarks (some r) none "" true (k + 1) =
        some ((bookmarks.filter (fun b =>
          (some r :: ds.map some).contains b.folderId)).filter (searchKeep "")) := by
      rw [visibleBookmarks_folder_flatten folders bookmarks r "" (k + 1) hrall hrfav, hds]
      rfl
    refine ⟨_, hvis, ?_⟩
    rw [filter_searchKeep_empty]
    refine List.mem_filter.mpr ⟨hb, ?_⟩
    rw [hbf]
    simp [hmem]
  · refine ⟨_, visibleBookmarks_folder_exact folders bookmarks r "" (k+1) hrall hrfav, ?_⟩
    intro hmem'
    rw [filter_searchKeep_empty] at hmem'
    rcases List.mem_filter.mp hmem' with ⟨_, hpred⟩
    rw [hbf] at hpred
    simp at hpred
    exact hne (by simpa using hpred)

/-- Witness for C2 on the concrete `Root → Sub` collection with one bookmark
filed in `Sub`. -/
theorem visibleBookmarks_flatten_subfolder_witness :
    (∃ l, visibleBookmarks demoFolders [demoSubBookmark] (some "r") none "" true 2 =
      some l ∧ demoSubBookmark ∈ l) ∧
    (∃ l, visibleBookmarks demoFolders [demoSubBookmark] (some "r") none "" false 2 =
      some l ∧ demoSubBookmark ∉ l) :=
  visibleBookmarks_flatten_subfolder demoFolders [demoSubBookmark] "r" "s"
    ⟨"s", "Sub", some "r"⟩ demoSubBookmark demoRank 2
    (by
      intro g hg p hp
      fin_cases hg
      · simp at hp
      · have hpr : p = "r" := by simpa using hp.symm
        subst hpr
        decide)
    (by decide) (by decide) (by decide) (by decide) (by decide) (by decide)
    (by decide) (by decide) (by decide)

/-- C1: when `selectedTag` is set, `visibleBookmarks` (with an empty search
query) keeps exactly the bookmarks whose `tags` sequence contains the tag as
a case-sensitive exact element; the selected folder, the flatten toggle and
the fuel have no effect on the result, so a bookmark tagged `t` is included
regardless of its `folderId`. -/
theorem visibleBookmarks_tag_scope (folders : List Folder)
    (bookmarks : List Bookmark) (selectedFolder : Option String) (t : String)
    (flattenSubfolders : Bool) (fuel : Nat) :
    visibleBookmarks folders bookmarks selectedFolder (some t) "" flattenSubfolders fuel =
      some (bookmarks.filter (fun b => decide (t ∈ b.tags))) := by
  simp only [visibleBookmarks]
  rw [filter_searchKeep_empty]
  congr 1
  apply List.filter_congr
  intro b _
  simp



/-- Under a child-decreasing rank function, `countFolderBookmarksFuel`
succeeds once the fuel exceeds the rank of the start id. -/
theorem countFolderBookmarksFuel_term (folders : List Folder)
    (bookmarks : List Bookmark) (rank : String → Nat) (hr : Ranked folders rank) :
    ∀ fuel x, rank x < fuel →
      ∃ n, countFolderBookmarksFuel folders bookmarks fuel x = some n := by
  intro fuel
  induction fuel with
  | zero => intro x hx; omega
  | succ k ih =>
    intro x hx
    have hsub : ∀ c ∈ (folders.filter
        (fun f => decide (f.parentId = some x))).map Folder.id,
        ∃ n, countFolderBookmarksFuel folders bookmarks k c = some n := by
      intro c hc
      rcases List.mem_map.mp hc with ⟨g, hg, rfl⟩
      rcases List.mem_filter.mp hg with ⟨hgmem, hgp⟩
      have hlt := hr g hgmem x (by simpa using hgp)
      exact ih g.id (by omega)
    obtain ⟨cs, hcs⟩ := traverseOption_all_some _ hsub
    refine ⟨(bookmarks.filter (fun b => decide (b.folderId = some x))).length + cs.sum, ?_⟩
    simp only [countFolderBookmarksFuel]
    rw [hcs]
    rfl

/-- A successful `countFolderBookmarksFuel` result is stable under adding
fuel. -/
theorem countFolderBookmarksFuel_mono (folders : List Folder)
    (bookmarks : List Bookmark) :
    ∀ fuel fuel' x n, fuel ≤ fuel' →
      countFolderBookmarksFuel folders bookmarks fuel x = some n →
      countFolderBookmarksFuel folders bookmarks fuel' x = some n := by
  intro fuel
  induction fuel with
  | zero => intro fuel' x n _ h; simp [countFolderBookmarksFuel] at h
  | succ k ih =>
    intro fuel' x n hle h
    obtain ⟨k', rfl⟩ : ∃ k', fuel' = k' + 1 := ⟨fuel' - 1, by omega⟩
    simp only [countFolderBookmarksFuel] at h ⊢
    rcases hm : traverseOption (countFolderBookmarksFuel folders bookmarks k)
        ((folders.filter (fun f => decide (f.parentId = some x))).map Folder.id)
        with _ | cs
    · rw [hm] at h; simp at h
    · rw [hm] at h
      rw [traverseOption_congr_some _ (fun c _ r hrr => ih k' c r (by omega) hrr) hm]
      exact h

/-- C8: for every folder `F` of an acyclic folder collection (rank function,
enough fuel), `countFolderBookmarks` terminates on `F` and equals the number
of bookmarks whose `folderId` is `F`'s id plus the sum of the (also
terminating) counts of the folders whose `parentId` is `F`'s id. -/
theorem bookmarkCount_recurrence (folders : List Folder) (bookmarks : List Bookmark)
    (rank : String → Nat) (hr : Ranked folders rank)
    (f : Folder) (hf : f ∈ folders) (fuel : Nat) (hfuel : rank f.id < fuel) :
    ∃ n cs,
      countFolderBookmarksFuel folders bookmarks fuel f.id = some n ∧
      traverseOption (countFolderBookmarksFuel folders bookmarks fuel)
        ((folders.filter (fun g => decide (g.parentId = some f.id))).map Folder.id) =
        some cs ∧
      n = (bookmarks.filter (fun b => decide (b.folderId = some f.id))).length + cs.sum := by
  obtain ⟨k, rfl⟩ : ∃ k, fuel = k + 1 := ⟨fuel - 1, by omega⟩
  have hsub : ∀ c ∈ (folders.filter
      (fun g => decide (g.parentId = some f.id))).map Folder.id,
      ∃ n, countFolderBookmarksFuel folders bookmarks k c = some n := by
    intro c hc
    rcases List.mem_map.mp hc with ⟨g, hg, rfl⟩
    rcases List.mem_filter.mp hg with ⟨hgmem, hgp⟩
    have hlt := hr g hgmem f.id (by simpa using hgp)
    exact countFolderBookmarksFuel_term folders bookmarks rank hr k g.id (by omega)
  obtain ⟨cs, hcs⟩ := traverseOption_all_some _ hsub
  have hcs' : traverseOption (countFolderBookmarksFuel folders bookmarks (k + 1))
      ((folders.filter (fun g => decide (g.parentId = some f.id))).map Folder.id) =
      some cs :=
    traverseOption_congr_some _ (fun c _ r hrr =>
      countFolderBookmarksFuel_mono folders bookmarks k (k + 1) c r (by omega) hrr) hcs
  refine ⟨_, cs, ?_, hcs', rfl⟩
  simp only [countFolderBookmarksFuel]
  rw [hcs]
  rfl

/-- Witness for C8 on the concrete `Root → Sub` collection with one bookmark
filed in `Sub`. -/
theorem bookmarkCount_recurrence_witness :
    ∃ n cs,
      countFolderBookmarksFuel demoFolders [demoSubBookmark] 2 "r" = some n ∧
      traverseOption (countFolderBookmarksFuel demoFolders [demoSubBookmark] 2)
        ((demoFolders.filter (fun g => decide (g.parentId = some "r"))).map Folder.id) =
        some cs ∧
      n = ([demoSubBookmark].filter
        (fun b => decide (b.folderId = some "r"))).length + cs.sum :=
  bookmarkCount_recurrence demoFolders [demoSubBookmark] demoRank
    (by
      intro g hg p hp
      fin_cases hg
      · simp at hp
      · have hpr : p = "r" := by simpa using hp.symm
        subst hpr
        decide)
    ⟨"r", "Root", none⟩ (by decide) 2 (by decide)

/-- Appending one more name to a non-empty chain appends `" > "` and the
name to the joined rendering. -/
theorem joinPath_append (xs : List String) (y : String) (h : xs ≠ []) :
    joinPath (xs ++ [y]) = joinPath xs ++ " > " ++ y := by
  induction xs with
  | nil => exact absurd rfl h
  | cons a as ihl =>
    cases as with
    | nil => rfl
    | cons b bs =>
      show (a ++ " > ") ++ joinPath ((b :: bs) ++ [y]) =
        ((a ++ " > ") ++ joinPath (b :: bs)) ++ " > " ++ y
      rw [ihl (by simp)]
      rw [← String.append_assoc, ← String.append_assoc]

/-- A successful name chain is never empty. -/
theorem nameChain_ne_nil (folders : List Folder) (fuel : Nat) (folder : Folder)
    (c : List String) (h : nameChain folders fuel folder = some c) : c ≠ [] := by
  cases fuel with
  | zero => exact absurd h (by simp [nameChain])
  | succ k =>
    simp only [nameChain] at h
    by_cases hj : jsFalsy folder.parentId
    · rw [if_pos hj] at h
      cases h
      simp
    · rw [if_neg hj] at h
      rcases hfind : folders.find? (fun f => decide (some f.id = folder.parentId))
          with _ | parent
      · simp only [hfind] at h
        cases h
        simp
      · simp only [hfind] at h
        rcases hc : nameChain folders k parent with _ | c'
        · rw [hc] at h; simp at h
        · rw [hc] at h
          simp only [Option.map_some', Option.some.injEq] at h
          subst h
          simp

/-- The code's `getParentPath` computes exactly the `" > "`-joined name
chain, at every fuel. -/
theorem getParentPath_eq_nameChain (folders : List Folder) :
    ∀ fuel folder,
      getParentPath folders fuel folder = (nameChain folders fuel folder).map joinPath := by
  intro fuel
  induction fuel with
  | zero => intro folder; rfl
  | succ k ih =>
    intro folder
    simp only [getParentPath, nameChain]
    by_cases hj : jsFalsy folder.parentId
    · rw [if_pos hj, if_pos hj]; rfl
    · rw [if_neg hj, if_neg hj]
      rcases hfind : folders.find? (fun f => decide (some f.id = folder.parentId))
          with _ | parent
      · simp only [hfind]
        rfl
      · simp only [hfind]
        rw [ih parent]
        rcases hc : nameChain folders k parent with _ | c'
        · rfl
        · simp only [Option.map_some']
          rw [joinPath_append c' folder.name (nameChain_ne_nil folders k parent c' hc)]

/-- Under a parent-decreasing rank function, `getParentPath` succeeds once
the fuel exceeds the rank of the folder. -/
theorem getParentPath_term (folders : List Folder) (rk : String → Nat)
    (hr : ParentRanked folders rk) :
    ∀ fuel folder, folder ∈ folders → rk folder.id < fuel →
      ∃ s, getParentPath folders fuel folder = some s := by
  intro fuel
  induction fuel with
  | zero => intro folder _ h; omega
  | succ k ih =>
    intro folder hmem hlt
    simp only [getParentPath]
    by_cases hj : jsFalsy folder.parentId
    · rw [if_pos hj]; exact ⟨_, rfl⟩
    · rw [if_neg hj]
      rcases hfind : folders.find? (fun f => decide (some f.id = folder.parentId))
          with _ | parent
      · simp only [hfind]
        exact ⟨_, rfl⟩
      · have hpmem : parent ∈ folders := List.mem_of_find?_eq_some hfind
        have hpid : folder.parentId = some parent.id := by
          have hp := List.find?_some hfind
          simpa using (of_decide_eq_true hp).symm
        have hplt := hr folder hmem parent hpmem hpid
        obtain ⟨s, hs⟩ := ih parent hpmem (by omega)
        simp only [hfind]
        rw [hs]
        exact ⟨_, rfl⟩

/-- C9 (amended): on an acyclic collection with sufficient fuel,
`getFolderPathName` returns `"All Bookmarks"` for null, `"all"`, or the
empty string (JavaScript falsiness), `"Favorites"` for `"favorites"`,
`"Unknown Folder"` for any other id with no matching folder, and otherwise
the `" > "`-joined chain of folder names from the root ancestor down (root
first), where a folder whose `parentId` is null, empty, or matches no folder
is treated as a root; moreover the result is always defined. -/
theorem pathName_amended_correct (folders : List Folder) (fuel : Nat)
    (folderId : Option String) (rk : String → Nat)
    (hr : ParentRanked folders rk) (hfuel : ∀ f ∈ folders, rk f.id < fuel) :
    getFolderPathName folders fuel folderId = pathNameAmended folders fuel folderId ∧
    ∃ s, getFolderPathName folders fuel folderId = some s := by
  constructor
  · simp only [getFolderPathName, pathNameAmended]
    by_cases h1 : jsFalsy folderId
    · rw [if_pos h1, if_pos h1]
    · rw [if_neg h1, if_neg h1]
      by_cases h2 : folderId = some "all"
      · rw [if_pos h2, if_pos h2]
      · rw [if_neg h2, if_neg h2]
        by_cases h3 : folderId = some "favorites"
        · rw [if_pos h3, if_pos h3]
        · rw [if_neg h3, if_neg h3]
          rcases hfind : folders.find? (fun f => decide (some f.id = folderId))
              with _ | folder
          · simp only [hfind]
          · simp only [hfind]
            exact getParentPath_eq_nameChain folders fuel folder
  · simp only [getFolderPathName]
    by_cases h1 : jsFalsy folderId
    · rw [if_pos h1]; exact ⟨_, rfl⟩
    · rw [if_neg h1]
      by_cases h2 : folderId = some "all"
      · rw [if_pos h2]; exact ⟨_, rfl⟩
      · rw [if_neg h2]
        by_cases h3 : folderId = some "favorites"
        · rw [if_pos h3]; exact ⟨_, rfl⟩
        · rw [if_neg h3]
          rcases hfind : folders.find? (fun f => decide (some f.id = folderId))
              with _ | folder
          · simp only [hfind]
            exact ⟨_, rfl⟩
          · simp only [hfind]
            exact getParentPath_term folders rk hr fuel folder
              (List.mem_of_find?_eq_some hfind) (hfuel folder (List.mem_of_find?_eq_some hfind))

/-- Witness for C9 (amended) on the three-level chain `Root → Mid → Leaf`,
including the spec's round-trip example `"Root > Mid > Leaf"`. -/
theorem pathName_amended_correct_witness :
    (getFolderPathName demoChain 3 (some "leaf") =
        pathNameAmended demoChain 3 (some "leaf") ∧
      ∃ s, getFolderPathName demoChain 3 (some "leaf") = some s) ∧
    getFolderPathName demoChain 3 (some "leaf") = some "Root > Mid > Leaf" :=
  ⟨pathName_amended_correct demoChain 3 (some "leaf") demoChainRk
      (by unfold ParentRanked; decide) (by decide),
    by decide⟩

end BookmarksManager
